import Mathlib

/-!
# StackDebt — verification of the scoring engine, resilience envelope,
# cache, throttle, and the frontend URL validation/normalization.

The scoring engine ("Carbon Dating Engine"), circuit breaker, retry
backoff, result cache and request throttle live in the backend, whose
implementation files are not present in this repository snapshot; those
parts are modelled from the specification (each such definition is marked
`Modelled from the spec:`).  The frontend URL validation and
normalization (`StackDebtAPI.validateAndParseURL` / `normalizeURL`) are
embedded directly from the source.

Numbers are modelled as exact rationals (`ℚ`): timestamps are rational
day counts, ages are rational years.
-/

namespace StackDebt

/-- Modelled from the spec: the closed set of component categories
(§3 Data Model, `category`). -/
inductive Category where
  | operating_system
  | programming_language
  | database
  | web_server
  | framework
  | library
  | development_tool
deriving DecidableEq

/-- Modelled from the spec: fixed category → base weight table
(§4.1 step 1): critical class 0.7, important class 0.3, minor class 0.1. -/
def categoryWeight : Category → ℚ
  | .operating_system => 7/10
  | .programming_language => 7/10
  | .database => 7/10
  | .web_server => 3/10
  | .framework => 3/10
  | .library => 1/10
  | .development_tool => 1/10

/-- Modelled from the spec: per-component risk classification
(§3 Data Model, `riskLevel`). -/
inductive RiskLevel where
  | critical
  | warning
  | ok
deriving DecidableEq

/-- Modelled from the spec: risk multiplier applied on top of the base
weight (§4.1 step 4): critical ×2.0, warning ×1.5, ok ×1.0. -/
def riskMultiplier : RiskLevel → ℚ
  | .critical => 2
  | .warning => 3/2
  | .ok => 1

/-- Modelled from the spec: one detected software unit (§3 Data Model,
`Component`).  `releaseDate` and `endOfLifeDate` are rational timestamps
in days; a component with `releaseDate = none` failed its reference
lookup and is excluded from scoring. -/
structure Component where
  name : String
  version : String
  category : Category
  releaseDate : Option ℚ
  endOfLifeDate : Option ℚ
deriving DecidableEq

/-- Modelled from the spec: `ageYears = (now − releaseDate) / 365.25`,
clamped to ≥ 0 (§4.1 step 2 and the failure-semantics clause: the engine
clamps negative ages from clock skew rather than failing). -/
def ageYearsOf (now rd : ℚ) : ℚ :=
  let a := (now - rd) / (365.25 : ℚ)
  if a < 0 then 0 else a

/-- Modelled from the spec: a component is past end-of-life when an EOL
date is present and `now` is strictly past it (§4.1 step 2). -/
def isPastEOL (now : ℚ) (eol : Option ℚ) : Bool :=
  match eol with
  | none => false
  | some e => decide (e < now)

/-- Modelled from the spec: risk classification (§4.1 step 3) with the
boundary policy fixed there: past EOL → critical; age ≥ 5 → critical;
2 ≤ age < 5 → warning; age < 2 → ok. -/
def classifyRisk (age : ℚ) (pastEOL : Bool) : RiskLevel :=
  if pastEOL then .critical
  else if 5 ≤ age then .critical
  else if 2 ≤ age then .warning
  else .ok

/-- Modelled from the spec: a component enriched by scoring with
`ageYears`, `riskLevel` and `weight` (§4.1 public operation). -/
structure ScoredComponent where
  name : String
  category : Category
  ageYears : ℚ
  riskLevel : RiskLevel
  weight : ℚ
deriving DecidableEq

/-- Modelled from the spec: per-component enrichment; a component
without a release date is dropped from scoring (§3 invariant). -/
def scoreComponent (now : ℚ) (c : Component) : Option ScoredComponent :=
  match c.releaseDate with
  | none => none
  | some rd =>
    let age := ageYearsOf now rd
    some { name := c.name
           category := c.category
           ageYears := age
           riskLevel := classifyRisk age (isPastEOL now c.endOfLifeDate)
           weight := categoryWeight c.category }

/-- Modelled from the spec: the scored set — all components with a
resolvable release date, enriched (§4.1). -/
def scoredComponents (now : ℚ) (cs : List Component) : List ScoredComponent :=
  cs.filterMap (scoreComponent now)

/-- A scored component's aggregation mass: `weight × riskMultiplier`
(§4.1 step 5). -/
def contribution (s : ScoredComponent) : ℚ :=
  s.weight * riskMultiplier s.riskLevel

/-- Accumulator for the single-pass aggregation over scored
components. -/
structure ScoreAcc where
  num : ℚ := 0
  den : ℚ := 0
  criticalCount : ℕ := 0
  warningCount : ℕ := 0
  okCount : ℕ := 0
deriving DecidableEq

/-- One aggregation step: add the component's weighted-age term to the
numerator, its mass to the denominator, and bump its risk counter. -/
def accStep (a : ScoreAcc) (s : ScoredComponent) : ScoreAcc :=
  { num := a.num + s.ageYears * contribution s
    den := a.den + contribution s
    criticalCount := a.criticalCount + (if s.riskLevel = .critical then 1 else 0)
    warningCount := a.warningCount + (if s.riskLevel = .warning then 1 else 0)
    okCount := a.okCount + (if s.riskLevel = .ok then 1 else 0) }

/-- Modelled from the spec: the scoring-engine output (§3
`StackAgeResult`): weighted effective age, count of components that
entered scoring, and the risk distribution. -/
structure StackAgeResult where
  effectiveAge : ℚ
  totalComponents : ℕ
  criticalCount : ℕ
  warningCount : ℕ
  okCount : ℕ
deriving DecidableEq

/-- Modelled from the spec: request-level error taxonomy entries needed
by the scoring path (§7): `InsufficientDataError` when the scored set is
empty. -/
inductive AnalysisError where
  | insufficientData
deriving DecidableEq

/-- Modelled from the spec: `score` (§4.1): enrich the components, fail
with `InsufficientDataError` on an empty scored set, otherwise aggregate
the weighted effective age and risk distribution in one pass. -/
def score (cs : List Component) (now : ℚ) : Except AnalysisError StackAgeResult :=
  let scored := scoredComponents now cs
  match scored with
  | [] => .error .insufficientData
  | _ :: _ =>
    let acc := scored.foldl accStep {}
    .ok { effectiveAge := acc.num / acc.den
          totalComponents := scored.length
          criticalCount := acc.criticalCount
          warningCount := acc.warningCount
          okCount := acc.okCount }

/-- Left fold of `min` over a list of rationals, seeded. -/
def foldMin (a : ℚ) (l : List ℚ) : ℚ := l.foldl min a

/-- Left fold of `max` over a list of rationals, seeded. -/
def foldMax (a : ℚ) (l : List ℚ) : ℚ := l.foldl max a

/-- Minimum `ageYears` among scored components (0 for the empty list). -/
def minAge : List ScoredComponent → ℚ
  | [] => 0
  | s :: rest => foldMin s.ageYears (rest.map (fun x => x.ageYears))

/-- Maximum `ageYears` among scored components (0 for the empty list). -/
def maxAge : List ScoredComponent → ℚ
  | [] => 0
  | s :: rest => foldMax s.ageYears (rest.map (fun x => x.ageYears))

lemma foldMin_le_init (l : List ℚ) : ∀ a, foldMin a l ≤ a := by
  induction l with
  | nil => intro a; exact le_refl a
  | cons x t ih =>
    intro a
    exact le_trans (ih (min a x)) (min_le_left a x)

lemma foldMin_le_mem (l : List ℚ) : ∀ a x, x ∈ l → foldMin a l ≤ x := by
  induction l with
  | nil => intro a x hx; cases hx
  | cons y t ih =>
    intro a x hx
    rcases List.mem_cons.mp hx with h | h
    · subst h
      exact le_trans (foldMin_le_init t (min a x)) (min_le_right a x)
    · exact ih (min a y) x h

lemma init_le_foldMax (l : List ℚ) : ∀ a, a ≤ foldMax a l := by
  induction l with
  | nil => intro a; exact le_refl a
  | cons x t ih =>
    intro a
    exact le_trans (le_max_left a x) (ih (max a x))

lemma mem_le_foldMax (l : List ℚ) : ∀ a x, x ∈ l → x ≤ foldMax a l := by
  induction l with
  | nil => intro a x hx; cases hx
  | cons y t ih =>
    intro a x hx
    rcases List.mem_cons.mp hx with h | h
    · subst h
      exact le_trans (le_max_right a x) (init_le_foldMax t (max a x))
    · exact ih (max a y) x h

lemma minAge_le (l : List ScoredComponent) (s : ScoredComponent) (hs : s ∈ l) :
    minAge l ≤ s.ageYears := by
  cases l with
  | nil => cases hs
  | cons s₀ rest =>
    rcases List.mem_cons.mp hs with h | h
    · subst h; exact foldMin_le_init _ _
    · exact foldMin_le_mem _ _ _ (List.mem_map.mpr ⟨s, h, rfl⟩)

lemma le_maxAge (l : List ScoredComponent) (s : ScoredComponent) (hs : s ∈ l) :
    s.ageYears ≤ maxAge l := by
  cases l with
  | nil => cases hs
  | cons s₀ rest =>
    rcases List.mem_cons.mp hs with h | h
    · subst h; exact init_le_foldMax _ _
    · exact mem_le_foldMax _ _ _ (List.mem_map.mpr ⟨s, h, rfl⟩)

lemma categoryWeight_pos (c : Category) : 0 < categoryWeight c := by
  cases c <;> norm_num [categoryWeight]

lemma riskMultiplier_pos (r : RiskLevel) : 0 < riskMultiplier r := by
  cases r <;> norm_num [riskMultiplier]

lemma scoreComponent_weight (now : ℚ) (c : Component) (s : ScoredComponent)
    (h : scoreComponent now c = some s) : s.weight = categoryWeight c.category := by
  unfold scoreComponent at h
  cases hrd : c.releaseDate with
  | none => rw [hrd] at h; cases h
  | some rd =>
    rw [hrd] at h
    simp only [Option.some.injEq] at h
    rw [← h]

lemma contribution_pos (now : ℚ) (cs : List Component) (s : ScoredComponent)
    (hs : s ∈ scoredComponents now cs) : 0 < contribution s := by
  obtain ⟨c, _, hc⟩ := List.mem_filterMap.mp hs
  have hw : s.weight = categoryWeight c.category := scoreComponent_weight now c s hc
  unfold contribution
  rw [hw]
  exact mul_pos (categoryWeight_pos _) (riskMultiplier_pos _)

lemma foldl_accStep_num (l : List ScoredComponent) :
    ∀ a : ScoreAcc, (l.foldl accStep a).num
      = a.num + (l.map (fun s => s.ageYears * contribution s)).sum := by
  induction l with
  | nil => intro a; simp
  | cons s t ih =>
    intro a
    rw [List.foldl_cons, ih (accStep a s)]
    simp only [accStep, List.map_cons, List.sum_cons]
    ring

lemma foldl_accStep_den (l : List ScoredComponent) :
    ∀ a : ScoreAcc, (l.foldl accStep a).den = a.den + (l.map contribution).sum := by
  induction l with
  | nil => intro a; simp
  | cons s t ih =>
    intro a
    rw [List.foldl_cons, ih (accStep a s)]
    simp only [accStep, List.map_cons, List.sum_cons]
    ring

lemma sum_contribution_pos (l : List ScoredComponent) (hne : l ≠ [])
    (hp : ∀ s ∈ l, 0 < contribution s) : 0 < (l.map contribution).sum := by
  cases l with
  | nil => exact absurd rfl hne
  | cons s t =>
    have h0 : 0 ≤ (t.map contribution).sum := by
      apply List.sum_nonneg
      intro x hx
      obtain ⟨y, hy, rfl⟩ := List.mem_map.mp hx
      exact le_of_lt (hp y (List.mem_cons_of_mem s hy))
    have hs : 0 < contribution s := hp s (List.mem_cons_self s t)
    simp only [List.map_cons, List.sum_cons]
    linarith

lemma sum_age_mul_le (l : List ScoredComponent) (M : ℚ)
    (hM : ∀ s ∈ l, s.ageYears ≤ M) (hp : ∀ s ∈ l, 0 ≤ contribution s) :
    (l.map (fun s => s.ageYears * contribution s)).sum ≤ M * (l.map contribution).sum := by
  induction l with
  | nil => simp
  | cons s t ih =>
    have h1 : s.ageYears * contribution s ≤ M * contribution s :=
      mul_le_mul_of_nonneg_right (hM s (List.mem_cons_self s t))
        (hp s (List.mem_cons_self s t))
    have h2 := ih (fun x hx => hM x (List.mem_cons_of_mem s hx))
      (fun x hx => hp x (List.mem_cons_of_mem s hx))
    simp only [List.map_cons, List.sum_cons]
    have : M * (contribution s + (t.map contribution).sum)
        = M * contribution s + M * (t.map contribution).sum := by ring
    rw [this]
    linarith

lemma le_sum_age_mul (l : List ScoredComponent) (m : ℚ)
    (hm : ∀ s ∈ l, m ≤ s.ageYears) (hp : ∀ s ∈ l, 0 ≤ contribution s) :
    m * (l.map contribution).sum ≤ (l.map (fun s => s.ageYears * contribution s)).sum := by
  induction l with
  | nil => simp
  | cons s t ih =>
    have h1 : m * contribution s ≤ s.ageYears * contribution s :=
      mul_le_mul_of_nonneg_right (hm s (List.mem_cons_self s t))
        (hp s (List.mem_cons_self s t))
    have h2 := ih (fun x hx => hm x (List.mem_cons_of_mem s hx))
      (fun x hx => hp x (List.mem_cons_of_mem s hx))
    simp only [List.map_cons, List.sum_cons]
    have : m * (contribution s + (t.map contribution).sum)
        = m * contribution s + m * (t.map contribution).sum := by ring
    rw [this]
    linarith

lemma sum_eq_max_forces (l : List ScoredComponent) (M : ℚ)
    (hM : ∀ s ∈ l, s.ageYears ≤ M) (hp : ∀ s ∈ l, 0 < contribution s)
    (heq : (l.map (fun s => s.ageYears * contribution s)).sum
      = M * (l.map contribution).sum) :
    ∀ s ∈ l, s.ageYears = M := by
  induction l with
  | nil => intro s hs; cases hs
  | cons s t ih =>
    have hM' : ∀ x ∈ t, x.ageYears ≤ M := fun x hx => hM x (List.mem_cons_of_mem s hx)
    have hp' : ∀ x ∈ t, 0 < contribution x := fun x hx => hp x (List.mem_cons_of_mem s hx)
    have h1 : s.ageYears * contribution s ≤ M * contribution s :=
      mul_le_mul_of_nonneg_right (hM s (List.mem_cons_self s t))
        (le_of_lt (hp s (List.mem_cons_self s t)))
    have h2 : (t.map (fun x => x.ageYears * contribution x)).sum
        ≤ M * (t.map contribution).sum :=
      sum_age_mul_le t M hM' (fun x hx => le_of_lt (hp' x hx))
    simp only [List.map_cons, List.sum_cons] at heq
    have hexp : M * (contribution s + (t.map contribution).sum)
        = M * contribution s + M * (t.map contribution).sum := by ring
    rw [hexp] at heq
    have hhead : s.ageYears * contribution s = M * contribution s := by linarith
    have htail : (t.map (fun x => x.ageYears * contribution x)).sum
        = M * (t.map contribution).sum := by linarith
    intro x hx
    rcases List.mem_cons.mp hx with h | h
    · subst h
      exact mul_right_cancel₀ (ne_of_gt (hp x (List.mem_cons_self x t))) hhead
    · exact ih hM' hp' htail x h

lemma sum_eq_min_forces (l : List ScoredComponent) (m : ℚ)
    (hm : ∀ s ∈ l, m ≤ s.ageYears) (hp : ∀ s ∈ l, 0 < contribution s)
    (heq : (l.map (fun s => s.ageYears * contribution s)).sum
      = m * (l.map contribution).sum) :
    ∀ s ∈ l, s.ageYears = m := by
  induction l with
  | nil => intro s hs; cases hs
  | cons s t ih =>
    have hm' : ∀ x ∈ t, m ≤ x.ageYears := fun x hx => hm x (List.mem_cons_of_mem s hx)
    have hp' : ∀ x ∈ t, 0 < contribution x := fun x hx => hp x (List.mem_cons_of_mem s hx)
    have h1 : m * contribution s ≤ s.ageYears * contribution s :=
      mul_le_mul_of_nonneg_right (hm s (List.mem_cons_self s t))
        (le_of_lt (hp s (List.mem_cons_self s t)))
    have h2 : m * (t.map contribution).sum
        ≤ (t.map (fun x => x.ageYears * contribution x)).sum :=
      le_sum_age_mul t m hm' (fun x hx => le_of_lt (hp' x hx))
    simp only [List.map_cons, List.sum_cons] at heq
    have hexp : m * (contribution s + (t.map contribution).sum)
        = m * contribution s + m * (t.map contribution).sum := by ring
    rw [hexp] at heq
    have hhead : s.ageYears * contribution s = m * contribution s := by linarith
    have htail : (t.map (fun x => x.ageYears * contribution x)).sum
        = m * (t.map contribution).sum := by linarith
    intro x hx
    rcases List.mem_cons.mp hx with h | h
    · subst h
      exact mul_right_cancel₀ (ne_of_gt (hp x (List.mem_cons_self x t))) hhead
    · exact ih hm' hp' htail x h

/-- On a non-empty scored set, `score` succeeds and its `effectiveAge`
is the weighted-mean quotient. -/
lemma score_ok (cs : List Component) (now : ℚ)
    (hne : scoredComponents now cs ≠ []) :
    score cs now = .ok
      { effectiveAge := ((scoredComponents now cs).map
            (fun s => s.ageYears * contribution s)).sum
          / ((scoredComponents now cs).map contribution).sum
        totalComponents := (scoredComponents now cs).length
        criticalCount := ((scoredComponents now cs).foldl accStep {}).criticalCount
        warningCount := ((scoredComponents now cs).foldl accStep {}).warningCount
        okCount := ((scoredComponents now cs).foldl accStep {}).okCount } := by
  have hnum := foldl_accStep_num (scoredComponents now cs) {}
  have hden := foldl_accStep_den (scoredComponents now cs) {}
  cases hsc : scoredComponents now cs with
  | nil => exact absurd hsc hne
  | cons s t =>
    rw [hsc] at hnum hden
    simp only [score, hsc, Except.ok.injEq, StackAgeResult.mk.injEq]
    refine ⟨?_, trivial, trivial, trivial, trivial⟩
    rw [hnum, hden]
    norm_num

/-- Modelled from the spec: one result-cache entry (§4.3): the stored
value, its wall-clock insertion time and its TTL. -/
structure CacheEntry (V : Type) where
  value : V
  insertedAt : ℚ
  ttl : ℚ
deriving DecidableEq

/-- Modelled from the spec: the result cache (§4.3), an association list
keyed by normalized target, most recently inserted first. -/
def CacheState (V : Type) : Type := List (String × CacheEntry V)

/-- Find the entry stored under a key, if any. -/
def cacheFind {V : Type} (c : CacheState V) (k : String) : Option (CacheEntry V) :=
  (List.find? (fun p => decide (p.1 = k)) c).map (fun p => p.2)

/-- Modelled from the spec: an entry whose TTL has elapsed at read time
is expired (§4.3: entries older than their TTL are treated as absent on
read, independent of any eviction sweep). -/
def entryExpired {V : Type} (e : CacheEntry V) (now : ℚ) : Bool :=
  decide (e.insertedAt + e.ttl ≤ now)

/-- Modelled from the spec: `get` (§4.3): a hit on an expired entry is
treated as absent even if no eviction sweep has removed it. -/
def cacheGet {V : Type} (c : CacheState V) (k : String) (now : ℚ) : Option V :=
  match cacheFind c k with
  | none => none
  | some e => if entryExpired e now then none else some e.value

/-- Modelled from the spec: `put` (§4.3): insert at the
most-recently-inserted end, replace any previous entry for the key, and
keep the structure bounded by evicting from the least recently inserted
end. -/
def cachePut {V : Type} (maxSize : ℕ) (c : CacheState V) (k : String) (v : V)
    (now ttl : ℚ) : CacheState V :=
  ((k, ⟨v, now, ttl⟩) :: c.filter (fun p => !(decide (p.1 = k)))).take maxSize

/-- Modelled from the spec: the request pipeline around the scoring
engine (§2 control flow and §4.3): consult the cache, on a miss run the
scoring engine, cache a success, and never write a cache entry for a
failed scoring run. -/
def runAnalysis (maxSize : ℕ) (cache : CacheState StackAgeResult) (key : String)
    (cs : List Component) (now ttl : ℚ) :
    Except AnalysisError StackAgeResult × CacheState StackAgeResult :=
  match cacheGet cache key now with
  | some r => (.ok r, cache)
  | none =>
    match score cs now with
    | .error e => (.error e, cache)
    | .ok r => (.ok r, cachePut maxSize cache key r now ttl)

/-- Modelled from the spec: circuit-breaker states (§4.2): `closed`
(normal), `opened` (rejecting; the spec's `Open`), `halfOpen` (trial). -/
inductive BreakerMode where
  | closed
  | opened
  | halfOpen
deriving DecidableEq

/-- Modelled from the spec: per-service breaker configuration (§4.2):
consecutive-failure threshold and recovery timeout. -/
structure CircuitBreakerConfig where
  failureThreshold : ℕ
  recoveryTimeout : ℚ
deriving DecidableEq

/-- Modelled from the spec: per-service breaker instance state (§4.2):
mode, consecutive-failure counter, and the time the breaker last entered
`opened`. -/
structure CircuitBreaker where
  state : BreakerMode
  failureCount : ℕ
  openedAt : ℚ
deriving DecidableEq

/-- Outcome the underlying external call would have if attempted. -/
inductive CallOutcome where
  | success
  | failure
deriving DecidableEq

/-- What the envelope did with one invocation: attempted the underlying
call (with its outcome), or rejected it without any attempt because the
circuit was open. -/
inductive CallResult where
  | completed (outcome : CallOutcome)
  | rejected
deriving DecidableEq

/-- Modelled from the spec: the half-open trial call (§4.2): success
closes the breaker and clears the counter; failure reopens it and resets
the recovery timer to the failing call's time. -/
def trialCall (b : CircuitBreaker) (now : ℚ) (o : CallOutcome) :
    CallResult × CircuitBreaker :=
  match o with
  | .success => (.completed .success, { state := .closed, failureCount := 0, openedAt := b.openedAt })
  | .failure => (.completed .failure, { state := .opened, failureCount := b.failureCount, openedAt := now })

/-- Modelled from the spec: one breaker-guarded invocation (§4.2).
While `opened` and inside the recovery window the call is rejected
immediately with no attempt and no state change; past the window the one
trial call runs; while `closed`, a success clears the consecutive-failure
counter and a failure increments it, tripping to `opened` when the
threshold is reached. -/
def breakerCall (cfg : CircuitBreakerConfig) (b : CircuitBreaker) (now : ℚ)
    (o : CallOutcome) : CallResult × CircuitBreaker :=
  match b.state with
  | .opened =>
    if now < b.openedAt + cfg.recoveryTimeout then (.rejected, b)
    else trialCall b now o
  | .halfOpen => trialCall b now o
  | .closed =>
    match o with
    | .success => (.completed .success, { b with failureCount := 0 })
    | .failure =>
      if cfg.failureThreshold ≤ b.failureCount + 1 then
        (.completed .failure, { state := .opened, failureCount := b.failureCount + 1, openedAt := now })
      else
        (.completed .failure, { b with failureCount := b.failureCount + 1 })

/-- A breaker as constructed at process start: closed, no failures. -/
def freshBreaker : CircuitBreaker :=
  { state := .closed, failureCount := 0, openedAt := 0 }

/-- Run a sequence of failing calls (one per timestamp) through the
breaker. -/
def applyFailures (cfg : CircuitBreakerConfig) (b : CircuitBreaker)
    (times : List ℚ) : CircuitBreaker :=
  times.foldl (fun b t => (breakerCall cfg b t .failure).2) b

/-- Modelled from the spec: throttle configuration (§4.4): dual sliding
windows with per-window limits. -/
structure ThrottleConfig where
  shortWindow : ℚ
  shortLimit : ℕ
  longWindow : ℚ
  longLimit : ℕ
deriving DecidableEq

/-- Modelled from the spec: per-client throttle state (§4.4): the
admission-timestamp lists of the two windows. -/
structure ThrottleState where
  shortEntries : List ℚ
  longEntries : List ℚ
deriving DecidableEq

/-- Admission decision: admitted, or throttled with the recommended
retry delay. -/
inductive ThrottleDecision where
  | admitted
  | throttled (retryAfter : ℚ)
deriving DecidableEq

/-- Modelled from the spec: lazy pruning (§4.4): entries older than the
window width are dropped before counting. -/
def pruneWindow (w now : ℚ) (ts : List ℚ) : List ℚ :=
  ts.filter (fun t => decide (now - t < w))

/-- Oldest (minimum) timestamp in a window's entry list. -/
def oldestEntry : List ℚ → ℚ
  | [] => 0
  | t :: rest => foldMin t rest

/-- Modelled from the spec: one admission check (§4.4): prune both
windows, admit only if both counters are under limit (admission
increments both), otherwise reject with retry-after = time until the
short window's oldest entry expires. -/
def throttleRequest (cfg : ThrottleConfig) (s : ThrottleState) (now : ℚ) :
    ThrottleDecision × ThrottleState :=
  let sh := pruneWindow cfg.shortWindow now s.shortEntries
  let lo := pruneWindow cfg.longWindow now s.longEntries
  if sh.length < cfg.shortLimit ∧ lo.length < cfg.longLimit then
    (.admitted, { shortEntries := now :: sh, longEntries := now :: lo })
  else
    (.throttled (oldestEntry sh + cfg.shortWindow - now), { shortEntries := sh, longEntries := lo })

/-- Run a sequence of requests (one per timestamp) through the throttle,
collecting the decisions. -/
def runThrottle (cfg : ThrottleConfig) :
    ThrottleState → List ℚ → List ThrottleDecision × ThrottleState
  | s, [] => ([], s)
  | s, t :: rest =>
    let step := throttleRequest cfg s t
    let tail := runThrottle cfg step.2 rest
    (step.1 :: tail.1, tail.2)

/-- Modelled from the spec: retry policy configuration (§4.2 retry
policy). -/
structure RetryConfig where
  maxAttempts : ℕ
  baseDelay : ℚ
  maxDelay : ℚ
  exponentialBase : ℚ
deriving DecidableEq

/-- Modelled from the spec: the backoff delay between attempt `k` and
`k+1` (§4.2 retry policy): `min(maxDelay, baseDelay × exponentialBase^k)`
with the ±25% uniform jitter applied multiplicatively; the jitter draw
(a factor in [0.75, 1.25]) is passed in explicitly, and is applied inside
the cap so that every delay respects `maxDelay`. -/
def retryDelay (cfg : RetryConfig) (k : ℕ) (jitter : ℚ) : ℚ :=
  min cfg.maxDelay (cfg.baseDelay * cfg.exponentialBase ^ k * jitter)

/-! ## Frontend URL validation and normalization

Embedded from `StackDebtAPI.validateAndParseURL` and
`StackDebtAPI.normalizeURL` (frontend API client).  The JavaScript
regular expressions are embedded as regular expressions over `Char` with
the standard derivative-based matcher; anchored `test`/`match` calls are
language membership, and the unanchored `^https?:\/\/` prefix test is a
literal prefix check. -/

/-- Regular expressions over characters. -/
inductive Regex where
  | emp
  | eps
  | pred (p : Char → Bool)
  | alt (r s : Regex)
  | cat (r s : Regex)
  | star (r : Regex)

/-- Does the regex accept the empty string? -/
def nullable : Regex → Bool
  | .emp => false
  | .eps => true
  | .pred _ => false
  | .alt r s => nullable r || nullable s
  | .cat r s => nullable r && nullable s
  | .star _ => true

/-- Brzozowski derivative of a regex by one character. -/
def deriv (r : Regex) (c : Char) : Regex :=
  match r with
  | .emp => .emp
  | .eps => .emp
  | .pred p => if p c then .eps else .emp
  | .alt r s => .alt (deriv r c) (deriv s c)
  | .cat r s =>
    if nullable r then .alt (.cat (deriv r c) s) (deriv s c)
    else .cat (deriv r c) s
  | .star r => .cat (deriv r c) (.star r)

/-- Anchored match: does the regex accept exactly this string? -/
def rmatch (r : Regex) (s : List Char) : Bool :=
  nullable (s.foldl deriv r)

/-- Single-character regex. -/
def chr (c : Char) : Regex := .pred (fun x => decide (x = c))

/-- One or more repetitions (`+`). -/
def rplus (r : Regex) : Regex := .cat r (.star r)

/-- Zero or one repetition (`?`). -/
def ropt (r : Regex) : Regex := .alt .eps r

/-- Literal string regex. -/
def rstr : List Char → Regex
  | [] => .eps
  | c :: cs => .cat (chr c) (rstr cs)

/-- JavaScript `\w`: ASCII letters, digits and underscore. -/
def isWordChar (c : Char) : Bool :=
  c.isAlphanum || decide (c = ('_'))

/-- The character class `[\w-.]` used by all the source URL patterns:
word characters plus dash and dot. -/
def isSegChar (c : Char) : Bool :=
  isWordChar c || decide (c = ('-')) || decide (c = ('.'))

/-- JavaScript `.`: any character except a line terminator. -/
def isJSDotChar (c : Char) : Bool :=
  !(decide (c = ('\n')) || decide (c = ('\r'))
    || decide (c = (Char.ofNat 0x2028)) || decide (c = (Char.ofNat 0x2029)))

/-- `[\w-.]+`: one URL path/name segment. -/
def segment : Regex := rplus (.pred isSegChar)

/-- `https?`. -/
def httpProto : Regex :=
  .cat (rstr (String.toList ("http"))) (ropt (chr ('s')))

/-- `(:\d+)?`: optional port. -/
def portOpt : Regex :=
  ropt (.cat (chr (':')) (rplus (.pred Char.isDigit)))

/-- `(\/.*)?`: optional path. -/
def pathOpt : Regex :=
  ropt (.cat (chr ('/')) (.star (.pred isJSDotChar)))

/-- `[\w-.]+\/[\w-.]+\/?`: owner, slash, repo, optional trailing slash. -/
def ownerRepoSlashOpt : Regex :=
  .cat segment (.cat (chr ('/')) (.cat segment (ropt (chr ('/')))))

/-- Source GitHub pattern 1: `^https?:\/\/github\.com\/[\w-.]+\/[\w-.]+\/?$`. -/
def githubPattern1 : Regex :=
  .cat httpProto (.cat (rstr (String.toList ("://github.com/"))) ownerRepoSlashOpt)

/-- Source GitHub pattern 2: `^https?:\/\/www\.github\.com\/[\w-.]+\/[\w-.]+\/?$`. -/
def githubPattern2 : Regex :=
  .cat httpProto (.cat (rstr (String.toList ("://www.github.com/"))) ownerRepoSlashOpt)

/-- Source GitHub pattern 3: `^github\.com\/[\w-.]+\/[\w-.]+\/?$`. -/
def githubPattern3 : Regex :=
  .cat (rstr (String.toList ("github.com/"))) ownerRepoSlashOpt

/-- Source GitHub pattern 4, the simple owner/repo format:
`^[\w-.]+\/[\w-.]+$`. -/
def ownerRepoPattern : Regex :=
  .cat segment (.cat (chr ('/')) segment)

/-- Source website pattern 1: `^https?:\/\/[\w-.]+(:\d+)?(\/.*)?$`. -/
def websitePattern1 : Regex :=
  .cat httpProto (.cat (rstr (String.toList ("://")))
    (.cat (rplus (.pred isSegChar)) (.cat portOpt pathOpt)))

/-- Source website pattern 2, domain without protocol:
`^[\w-.]+\.[a-zA-Z]{2,}(:\d+)?(\/.*)?$`. -/
def websitePattern2 : Regex :=
  .cat (rplus (.pred isSegChar))
    (.cat (chr ('.'))
      (.cat (.cat (.pred Char.isAlpha) (rplus (.pred Char.isAlpha)))
        (.cat portOpt pathOpt)))

/-- The source's ordered GitHub pattern list. -/
def githubPatterns : List Regex :=
  [githubPattern1, githubPattern2, githubPattern3, ownerRepoPattern]

/-- The source's ordered website pattern list. -/
def websitePatterns : List Regex :=
  [websitePattern1, websitePattern2]

/-- JavaScript `String.prototype.trim`: drop whitespace from both
ends. -/
def trimChars (s : List Char) : List Char :=
  ((s.dropWhile Char.isWhitespace).reverse.dropWhile Char.isWhitespace).reverse

/-- The two analysis target kinds the frontend distinguishes. -/
inductive URLType where
  | website
  | github
deriving DecidableEq

/-- Return shape of `validateAndParseURL`. -/
structure ParseResult where
  isValid : Bool
  type : Option URLType
  error : Option (List Char)
deriving DecidableEq

/-- Error text for an empty input. -/
def emptyURLError : List Char := String.toList ("URL cannot be empty")

/-- Error text for an unrecognized input. -/
def invalidURLError : List Char :=
  String.toList ("Please enter a valid website URL (e.g., https://example.com) or GitHub repository (e.g., owner/repo)")

/-- Embedded from `StackDebtAPI.validateAndParseURL`: reject empty
input, then try the GitHub patterns in order, then the website patterns
in order. -/
def validateAndParseURL (url : List Char) : ParseResult :=
  let trimmed := trimChars url
  if trimmed.length = 0 then
    { isValid := false, type := none, error := some emptyURLError }
  else if githubPatterns.any (fun p => rmatch p trimmed) then
    { isValid := true, type := some .github, error := none }
  else if websitePatterns.any (fun p => rmatch p trimmed) then
    { isValid := true, type := some .website, error := none }
  else
    { isValid := false, type := none, error := some invalidURLError }

/-- Does the first list start with the second? (JavaScript
`String.prototype.startsWith`.) -/
def listStartsWith : List Char → List Char → Bool
  | _, [] => true
  | [], _ :: _ => false
  | c :: cs, p :: ps => decide (c = p) && listStartsWith cs ps

/-- The literal `"github.com/"`. -/
def githubComSlashLit : List Char := String.toList ("github.com/")

/-- The literal `"https://"`. -/
def httpsLit : List Char := String.toList ("https://")

/-- The literal `"http://"`. -/
def httpLit : List Char := String.toList ("http://")

/-- The literal `"https://github.com/"`. -/
def httpsGithubLit : List Char := String.toList ("https://github.com/")

/-- Embedded from `StackDebtAPI.normalizeURL`: canonicalize a GitHub
target to a full `https://github.com/owner/repo` URL and prefix
`https://` to a protocol-less website target. -/
def normalizeURL (url : List Char) (t : URLType) : List Char :=
  let trimmed := trimChars url
  match t with
  | .github =>
    if rmatch ownerRepoPattern trimmed then httpsGithubLit ++ trimmed
    else if listStartsWith trimmed githubComSlashLit then httpsLit ++ trimmed
    else trimmed
  | .website =>
    if listStartsWith trimmed httpLit || listStartsWith trimmed httpsLit then trimmed
    else httpsLit ++ trimmed

/-! ## Helper lemmas for the claim theorems -/

lemma classifyRisk_iff (age : ℚ) (p : Bool) :
    (classifyRisk age p = .critical ↔ (5 ≤ age ∨ p = true)) ∧
    (classifyRisk age p = .warning ↔ (2 ≤ age ∧ age < 5 ∧ p = false)) ∧
    (classifyRisk age p = .ok ↔ (age < 2 ∧ p = false)) := by
  unfold classifyRisk
  cases p <;> split_ifs <;> simp_all
  all_goals linarith

lemma scoreComponent_fields (now : ℚ) (c : Component) (s : ScoredComponent)
    (h : scoreComponent now c = some s) :
    ∃ rd, c.releaseDate = some rd ∧ s.ageYears = ageYearsOf now rd ∧
      s.riskLevel = classifyRisk (ageYearsOf now rd) (isPastEOL now c.endOfLifeDate) := by
  unfold scoreComponent at h
  cases hrd : c.releaseDate with
  | none => rw [hrd] at h; cases h
  | some rd =>
    rw [hrd] at h
    simp only [Option.some.injEq] at h
    exact ⟨rd, rfl, by rw [← h], by rw [← h]⟩

/-! ## The claim theorems -/

/-- The spec's worked scenario: an operating system 8 years old and two
libraries 0.1 and 0.2 years old at `now = 0` (release dates 8 × 365.25,
0.1 × 365.25 and 0.2 × 365.25 days in the past). -/
def scenarioComponents : List Component :=
  [ { name := "os", version := "1", category := .operating_system,
      releaseDate := some (-2922), endOfLifeDate := none }
  , { name := "lib1", version := "1", category := .library,
      releaseDate := some (-1461/40), endOfLifeDate := none }
  , { name := "lib2", version := "1", category := .library,
      releaseDate := some (-1461/20), endOfLifeDate := none } ]

/-- C1: for every non-empty scored set, `effectiveAge` is
`Σ(ageYears·weight·riskMultiplier) / Σ(weight·riskMultiplier)` — the
risk multiplier is part of the denominator; and on the three-component
scenario (operating system 8y, libraries 0.1y and 0.2y) the effective
age is 11.23 / 1.6 = 1123/160 and the risk distribution is
critical 1 / warning 0 / ok 2. -/
theorem effectiveAge_is_weighted_mean :
    (∀ (cs : List Component) (now : ℚ), scoredComponents now cs ≠ [] →
      ∃ r, score cs now = .ok r ∧
        r.effectiveAge
          = ((scoredComponents now cs).map (fun s => s.ageYears * contribution s)).sum
            / ((scoredComponents now cs).map contribution).sum) ∧
    score scenarioComponents 0
      = .ok { effectiveAge := 1123/160, totalComponents := 3,
              criticalCount := 1, warningCount := 0, okCount := 2 } := by
  constructor
  · intro cs now hne
    exact ⟨_, score_ok cs now hne, rfl⟩
  · simp [score, scoredComponents, scoreComponent, scenarioComponents, ageYearsOf,
      isPastEOL, classifyRisk, categoryWeight, contribution, riskMultiplier, accStep]
    norm_num
    decide

/-- Witness for C1: the general weighted-mean formula applied to the
concrete scenario list. -/
theorem effectiveAge_is_weighted_mean_witness :
    ∃ r, score scenarioComponents 0 = .ok r ∧
      r.effectiveAge
        = ((scoredComponents 0 scenarioComponents).map
              (fun s => s.ageYears * contribution s)).sum
          / ((scoredComponents 0 scenarioComponents).map contribution).sum :=
  effectiveAge_is_weighted_mean.1 scenarioComponents 0
    (by simp [scoredComponents, scoreComponent, scenarioComponents])

/-- C2: for every scored component the risk level follows exact
half-open boundaries on the (clamped) age: critical iff age ≥ 5 or past
EOL, warning iff 2 ≤ age < 5 and not past EOL, ok iff age < 2 and not
past EOL; in particular age exactly 5 is critical and age exactly 2 is
warning. -/
theorem riskLevel_boundaries :
    (∀ (now : ℚ) (c : Component) (s : ScoredComponent),
      scoreComponent now c = some s →
        ((s.riskLevel = .critical ↔ (5 ≤ s.ageYears ∨ isPastEOL now c.endOfLifeDate = true)) ∧
         (s.riskLevel = .warning ↔ (2 ≤ s.ageYears ∧ s.ageYears < 5 ∧ isPastEOL now c.endOfLifeDate = false)) ∧
         (s.riskLevel = .ok ↔ (s.ageYears < 2 ∧ isPastEOL now c.endOfLifeDate = false)))) ∧
    classifyRisk 5 false = .critical ∧ classifyRisk 2 false = .warning := by
  refine ⟨?_, by norm_num [classifyRisk], by norm_num [classifyRisk]⟩
  intro now c s h
  obtain ⟨rd, _, hage, hrisk⟩ := scoreComponent_fields now c s h
  rw [hrisk, hage]
  exact classifyRisk_iff (ageYearsOf now rd) (isPastEOL now c.endOfLifeDate)

/-- A component whose release date is exactly 5 × 365.25 days in the
past at `now = 0`. -/
def fiveYearComponent : Component :=
  { name := "os5", version := "1", category := .operating_system,
    releaseDate := some (-7305/4), endOfLifeDate := none }

/-- The enrichment of `fiveYearComponent` at `now = 0`, written with its
fields as the engine computes them. -/
def fiveYearScored : ScoredComponent :=
  { name := "os5", category := .operating_system,
    ageYears := ageYearsOf 0 (-7305/4),
    riskLevel := classifyRisk (ageYearsOf 0 (-7305/4)) false,
    weight := categoryWeight .operating_system }

/-- Witness for C2: the boundary characterization applied to a concrete
component aged exactly 5 years. -/
theorem riskLevel_boundaries_witness :
    ((fiveYearScored.riskLevel = .critical
        ↔ (5 ≤ fiveYearScored.ageYears ∨ isPastEOL 0 fiveYearComponent.endOfLifeDate = true)) ∧
     (fiveYearScored.riskLevel = .warning
        ↔ (2 ≤ fiveYearScored.ageYears ∧ fiveYearScored.ageYears < 5
            ∧ isPastEOL 0 fiveYearComponent.endOfLifeDate = false)) ∧
     (fiveYearScored.riskLevel = .ok
        ↔ (fiveYearScored.ageYears < 2 ∧ isPastEOL 0 fiveYearComponent.endOfLifeDate = false))) :=
  riskLevel_boundaries.1 0 fiveYearComponent fiveYearScored rfl

/-- C3: when no component has a resolvable release date the scored set
is empty, `score` fails with `InsufficientDataError` (it produces no
`StackAgeResult` at all, so no zero or undefined effective age), and the
request pipeline writes no cache entry. -/
theorem insufficientData_on_empty_scored :
    ∀ (cs : List Component) (now : ℚ), scoredComponents now cs = [] →
      score cs now = .error .insufficientData ∧
      ∀ (maxSize : ℕ) (cache : CacheState StackAgeResult) (key : String) (ttl : ℚ),
        cacheGet cache key now = none →
          runAnalysis maxSize cache key cs now ttl = (.error .insufficientData, cache) := by
  intro cs now h
  have hs : score cs now = .error .insufficientData := by
    simp only [score, h]
  refine ⟨hs, ?_⟩
  intro maxSize cache key ttl hmiss
  simp only [runAnalysis, hmiss, hs]

/-- A component whose reference lookup failed: no release date. -/
def noDateComponent : Component :=
  { name := "mystery", version := "1", category := .library,
    releaseDate := none, endOfLifeDate := none }

/-- The empty result cache. -/
def emptyCache : CacheState StackAgeResult := []

/-- A cache key literal for the witnesses. -/
def witnessKey : String := "https://example.com"

/-- Witness for C3: a single unresolvable component, an empty cache. -/
theorem insufficientData_on_empty_scored_witness :
    score [noDateComponent] 0 = .error .insufficientData ∧
    runAnalysis 1000 emptyCache witnessKey [noDateComponent] 0 60
      = (.error .insufficientData, emptyCache) := by
  have h := insufficientData_on_empty_scored [noDateComponent] 0 rfl
  exact ⟨h.1, h.2 1000 emptyCache witnessKey 60 rfl⟩

/-- Two components of identical age (3 years at `now = 0`) but very
different aggregation masses: an operating system (weight 0.7) and a
library (weight 0.1), both `warning` (multiplier 1.5). -/
def equalAgeComponents : List Component :=
  [ { name := "os3", version := "1", category := .operating_system,
      releaseDate := some (-4383/4), endOfLifeDate := none }
  , { name := "lib3", version := "1", category := .library,
      releaseDate := some (-4383/4), endOfLifeDate := none } ]

/-- Counterexample to C4 as stated: on `equalAgeComponents` the
effective age equals the maximum (and minimum) `ageYears`, yet the
products `weight × riskMultiplier` are 21/20 and 3/20 — not all equal.
Equality at an extreme therefore does not require equal
weight×multiplier products. -/
theorem effectiveAge_extreme_counterexample :
    score equalAgeComponents 0
      = .ok { effectiveAge := 3, totalComponents := 2,
              criticalCount := 0, warningCount := 2, okCount := 0 } ∧
    maxAge (scoredComponents 0 equalAgeComponents) = 3 ∧
    (scoredComponents 0 equalAgeComponents).map contribution = [21/20, 3/20] := by
  refine ⟨?_, ?_, ?_⟩ <;>
    simp [score, scoredComponents, scoreComponent, equalAgeComponents, ageYearsOf,
      isPastEOL, classifyRisk, categoryWeight, contribution, riskMultiplier, accStep,
      maxAge, foldMax]
  all_goals try norm_num
  all_goals decide

/-- C4 as amended: for every component set with at least one scoreable
component the effective age lies between the minimum and maximum
`ageYears` of the scored components, and equality at either extreme is
possible only when all scored `ageYears` are equal (to the effective age
itself) — not, as originally stated, only when all weight×multiplier
products are equal. -/
theorem effectiveAge_between_min_max :
    ∀ (cs : List Component) (now : ℚ), scoredComponents now cs ≠ [] →
      ∃ r, score cs now = .ok r ∧
        minAge (scoredComponents now cs) ≤ r.effectiveAge ∧
        r.effectiveAge ≤ maxAge (scoredComponents now cs) ∧
        ((r.effectiveAge = minAge (scoredComponents now cs)
            ∨ r.effectiveAge = maxAge (scoredComponents now cs)) →
          ∀ s ∈ scoredComponents now cs, s.ageYears = r.effectiveAge) := by
  intro cs now hne
  have hpos : ∀ s ∈ scoredComponents now cs, 0 < contribution s :=
    fun s hs => contribution_pos now cs s hs
  have hden : 0 < ((scoredComponents now cs).map contribution).sum :=
    sum_contribution_pos _ hne hpos
  refine ⟨_, score_ok cs now hne, ?_, ?_, ?_⟩
  · dsimp only
    rw [le_div_iff₀ hden]
    exact le_sum_age_mul _ _ (fun s hs => minAge_le _ s hs)
      (fun s hs => le_of_lt (hpos s hs))
  · dsimp only
    rw [div_le_iff₀ hden]
    exact sum_age_mul_le _ _ (fun s hs => le_maxAge _ s hs)
      (fun s hs => le_of_lt (hpos s hs))
  · dsimp only
    intro hcase s hs
    rcases hcase with hmin | hmax
    · have hnum : ((scoredComponents now cs).map
          (fun s => s.ageYears * contribution s)).sum
          = minAge (scoredComponents now cs) * ((scoredComponents now cs).map contribution).sum :=
        (div_eq_iff (ne_of_gt hden)).mp hmin
      have := sum_eq_min_forces _ _ (fun x hx => minAge_le _ x hx) hpos hnum s hs
      rw [this, ← hmin]
    · have hnum : ((scoredComponents now cs).map
          (fun s => s.ageYears * contribution s)).sum
          = maxAge (scoredComponents now cs) * ((scoredComponents now cs).map contribution).sum :=
        (div_eq_iff (ne_of_gt hden)).mp hmax
      have := sum_eq_max_forces _ _ (fun x hx => le_maxAge _ x hx) hpos hnum s hs
      rw [this, ← hmax]

/-- Witness for the amended C4 at the concrete two-component input. -/
theorem effectiveAge_between_min_max_witness :
    ∃ r, score equalAgeComponents 0 = .ok r ∧
      minAge (scoredComponents 0 equalAgeComponents) ≤ r.effectiveAge ∧
      r.effectiveAge ≤ maxAge (scoredComponents 0 equalAgeComponents) ∧
      ((r.effectiveAge = minAge (scoredComponents 0 equalAgeComponents)
          ∨ r.effectiveAge = maxAge (scoredComponents 0 equalAgeComponents)) →
        ∀ s ∈ scoredComponents 0 equalAgeComponents, s.ageYears = r.effectiveAge) :=
  effectiveAge_between_min_max equalAgeComponents 0
    (by simp [scoredComponents, scoreComponent, equalAgeComponents])

lemma applyFailures_closed (cfg : CircuitBreakerConfig) (times : List ℚ) :
    ∀ (k : ℕ) (a : ℚ), k + times.length < cfg.failureThreshold →
      applyFailures cfg ⟨.closed, k, a⟩ times = ⟨.closed, k + times.length, a⟩ := by
  induction times with
  | nil => intro k a _; simp [applyFailures]
  | cons x rest ih =>
    intro k a h
    have hlen : (x :: rest).length = rest.length + 1 := List.length_cons x rest
    have hlt : ¬ cfg.failureThreshold ≤ k + 1 := by omega
    have hstep : (breakerCall cfg ⟨.closed, k, a⟩ x .failure).2 = ⟨.closed, k + 1, a⟩ := by
      simp [breakerCall, hlt]
    show applyFailures cfg ((breakerCall cfg ⟨.closed, k, a⟩ x .failure).2) rest = _
    rw [hstep, ih (k + 1) a (by omega)]
    simp [CircuitBreaker.mk.injEq]
    omega

lemma applyFailures_trips (cfg : CircuitBreakerConfig) (times : List ℚ) :
    ∀ (k : ℕ) (a : ℚ), times ≠ [] → k + times.length = cfg.failureThreshold →
      (applyFailures cfg ⟨.closed, k, a⟩ times).state = .opened ∧
      (applyFailures cfg ⟨.closed, k, a⟩ times).failureCount = cfg.failureThreshold := by
  induction times with
  | nil => intro k a hne _; exact absurd rfl hne
  | cons x rest ih =>
    intro k a _ h
    cases rest with
    | nil =>
      have hge : cfg.failureThreshold ≤ k + 1 := by simp at h; omega
      have hcount : k + 1 = cfg.failureThreshold := by simp at h; omega
      show ((applyFailures cfg ((breakerCall cfg ⟨.closed, k, a⟩ x .failure).2) []).state = _) ∧ _
      simp [applyFailures, breakerCall, hge, hcount]
    | cons y rest2 =>
      have hlt : ¬ cfg.failureThreshold ≤ k + 1 := by simp at h; omega
      have hstep : (breakerCall cfg ⟨.closed, k, a⟩ x .failure).2 = ⟨.closed, k + 1, a⟩ := by
        simp [breakerCall, hlt]
      have hunfold : applyFailures cfg ⟨.closed, k, a⟩ (x :: y :: rest2)
          = applyFailures cfg ⟨.closed, k + 1, a⟩ (y :: rest2) := by
        show applyFailures cfg ((breakerCall cfg ⟨.closed, k, a⟩ x .failure).2) (y :: rest2) = _
        rw [hstep]
      rw [hunfold]
      exact ih (k + 1) a (List.cons_ne_nil y rest2) (by simp at h ⊢; omega)

/-- C5: the circuit-breaker life cycle — exactly `failureThreshold`
consecutive failures from a fresh breaker trip it from closed to open
(fewer leave it closed with the exact count); while open and inside the
recovery window every call is rejected with no underlying attempt and no
state change (in particular the failure counter is not incremented);
once the window has elapsed the single trial call is attempted: success
closes the breaker and clears the counter, failure reopens it with the
recovery timer reset to the failing call's time. -/
theorem circuitBreaker_lifecycle :
    ∀ cfg : CircuitBreakerConfig,
      (∀ times : List ℚ, times.length < cfg.failureThreshold →
        applyFailures cfg freshBreaker times
          = { state := .closed, failureCount := times.length, openedAt := 0 }) ∧
      (∀ times : List ℚ, times ≠ [] → times.length = cfg.failureThreshold →
        (applyFailures cfg freshBreaker times).state = .opened ∧
        (applyFailures cfg freshBreaker times).failureCount = cfg.failureThreshold) ∧
      (∀ (b : CircuitBreaker) (now : ℚ) (o : CallOutcome), b.state = .opened →
        now < b.openedAt + cfg.recoveryTimeout →
        breakerCall cfg b now o = (.rejected, b)) ∧
      (∀ (b : CircuitBreaker) (now : ℚ), b.state = .opened →
        b.openedAt + cfg.recoveryTimeout ≤ now →
        breakerCall cfg b now .success
            = (.completed .success, { state := .closed, failureCount := 0, openedAt := b.openedAt }) ∧
        breakerCall cfg b now .failure
            = (.completed .failure, { state := .opened, failureCount := b.failureCount, openedAt := now })) := by
  intro cfg
  refine ⟨?_, ?_, ?_, ?_⟩
  · intro times h
    have := applyFailures_closed cfg times 0 0 (by omega)
    simpa [freshBreaker] using this
  · intro times hne h
    have := applyFailures_trips cfg times 0 0 hne (by omega)
    simpa [freshBreaker] using this
  · intro b now o hstate hwin
    cases b with
    | mk st fc oa =>
      simp only at hstate hwin
      subst hstate
      simp [breakerCall, hwin]
  · intro b now hstate helapsed
    cases b with
    | mk st fc oa =>
      simp only at hstate helapsed
      subst hstate
      constructor <;> simp [breakerCall, trialCall, not_lt.mpr helapsed]

/-- A breaker configuration with threshold 3 and a 30-day recovery
window, for the witness. -/
def witnessBreakerConfig : CircuitBreakerConfig :=
  { failureThreshold := 3, recoveryTimeout := 30 }

/-- An open breaker instance for the witness. -/
def openBreaker : CircuitBreaker :=
  { state := .opened, failureCount := 3, openedAt := 5 }

/-- Witness for C5 at threshold 3: two failures leave the breaker
closed, a third opens it; a call at time 10 (inside the window that ends
at 35) is rejected unchanged; trial calls at time 40 close or re-open
it. -/
theorem circuitBreaker_lifecycle_witness :
    applyFailures witnessBreakerConfig freshBreaker [1, 2]
      = { state := .closed, failureCount := 2, openedAt := 0 } ∧
    (applyFailures witnessBreakerConfig freshBreaker [1, 2, 3]).state = .opened ∧
    breakerCall witnessBreakerConfig openBreaker 10 .failure = (.rejected, openBreaker) ∧
    breakerCall witnessBreakerConfig openBreaker 40 .success
      = (.completed .success, { state := .closed, failureCount := 0, openedAt := 5 }) ∧
    breakerCall witnessBreakerConfig openBreaker 40 .failure
      = (.completed .failure, { state := .opened, failureCount := 3, openedAt := 40 }) := by
  have h := circuitBreaker_lifecycle witnessBreakerConfig
  refine ⟨?_, ?_, ?_, ?_, ?_⟩
  · exact h.1 [1, 2] (by norm_num [witnessBreakerConfig])
  · exact (h.2.1 [1, 2, 3] (by simp) (by norm_num [witnessBreakerConfig])).1
  · exact h.2.2.1 openBreaker 10 .failure rfl (by norm_num [openBreaker, witnessBreakerConfig])
  · exact (h.2.2.2 openBreaker 40 rfl (by norm_num [openBreaker, witnessBreakerConfig])).1
  · exact (h.2.2.2 openBreaker 40 rfl (by norm_num [openBreaker, witnessBreakerConfig])).2

/-- C6: a `put` immediately followed by a `get` on the same key returns
the stored value (for any positive capacity and TTL), and a `get` that
finds an entry whose TTL has elapsed returns absent — no eviction sweep
is involved in either statement. -/
theorem cache_put_get_and_ttl_expiry :
    (∀ (V : Type) (maxSize : ℕ) (c : CacheState V) (k : String) (v : V) (now ttl : ℚ),
      0 < maxSize → 0 < ttl →
        cacheGet (cachePut maxSize c k v now ttl) k now = some v) ∧
    (∀ (V : Type) (c : CacheState V) (k : String) (now : ℚ) (e : CacheEntry V),
      cacheFind c k = some e → e.insertedAt + e.ttl ≤ now →
        cacheGet c k now = none) := by
  constructor
  · intro V maxSize c k v now ttl hms httl
    cases maxSize with
    | zero => exact absurd hms (lt_irrefl 0)
    | succ m =>
      have hfind : cacheFind (cachePut (m + 1) c k v now ttl) k
          = some ⟨v, now, ttl⟩ := by
        unfold cachePut cacheFind
        rw [List.take_succ_cons, List.find?_cons_of_pos _ (by simp)]
        rfl
      have hexp : entryExpired (⟨v, now, ttl⟩ : CacheEntry V) now = false := by
        unfold entryExpired
        simp only [decide_eq_false_iff_not, not_le]
        linarith
      simp [cacheGet, hfind, hexp]
  · intro V c k now e hfind hel
    have hexp : entryExpired e now = true := by
      unfold entryExpired
      simpa using hel
    simp [cacheGet, hfind, hexp]

/-- A one-entry cache whose entry was inserted at time 0 with a
60-minute TTL. -/
def staleCache : CacheState ℕ := [(witnessKey, ⟨7, 0, 60⟩)]

/-- Witness for C6: put-then-get returns the value; at time 100 the
60-TTL entry inserted at 0 reads as absent. -/
theorem cache_put_get_and_ttl_expiry_witness :
    cacheGet (cachePut 1000 ([] : CacheState ℕ) witnessKey 7 0 60) witnessKey 0 = some 7 ∧
    cacheGet staleCache witnessKey 100 = none := by
  have h := cache_put_get_and_ttl_expiry
  constructor
  · exact h.1 ℕ 1000 [] witnessKey 7 0 60 (by norm_num) (by norm_num)
  · exact h.2 ℕ staleCache witnessKey 100 ⟨7, 0, 60⟩ rfl (by norm_num)

lemma pruneWindow_keep_all (w now : ℚ) (ts : List ℚ)
    (h : ∀ e ∈ ts, now - e < w) : pruneWindow w now ts = ts := by
  unfold pruneWindow
  apply List.filter_eq_self.mpr
  intro a ha
  simp only [decide_eq_true_eq]
  exact h a ha

lemma runThrottle_cons (cfg : ThrottleConfig) (s : ThrottleState) (t : ℚ)
    (rest : List ℚ) :
    runThrottle cfg s (t :: rest)
      = ((throttleRequest cfg s t).1
          :: (runThrottle cfg (throttleRequest cfg s t).2 rest).1,
         (runThrottle cfg (throttleRequest cfg s t).2 rest).2) := rfl

/-- Invariant run of the throttle over a non-decreasing request
sequence whose span stays inside the short window, started from a state
holding the same (unexpired, earlier) admission timestamps in both
windows: the first `shortLimit − |es|` requests are admitted and every
later one is throttled with retry-after at most the short window
width. -/
lemma runThrottle_window_shape (cfg : ThrottleConfig)
    (_hW : 0 < cfg.shortWindow) (hWL : cfg.shortWindow ≤ cfg.longWindow)
    (hL : 1 ≤ cfg.shortLimit) (hLL : cfg.shortLimit ≤ cfg.longLimit) :
    ∀ (times es : List ℚ),
      List.Pairwise (fun a b => a ≤ b) times →
      (∀ t ∈ times, ∀ u ∈ times, t - u < cfg.shortWindow) →
      es.length ≤ cfg.shortLimit →
      (∀ e ∈ es, ∀ t ∈ times, e ≤ t ∧ t - e < cfg.shortWindow) →
      ∃ ts : List ThrottleDecision,
        (runThrottle cfg ⟨es, es⟩ times).1
          = List.replicate (min times.length (cfg.shortLimit - es.length))
              ThrottleDecision.admitted ++ ts ∧
        ∀ d ∈ ts, ∃ r, d = ThrottleDecision.throttled r ∧ r ≤ cfg.shortWindow := by
  intro times
  induction times with
  | nil =>
    intro es _ _ _ _
    exact ⟨[], by simp [runThrottle], by simp⟩
  | cons t rest ih =>
    intro es hpair hspan hlen hes
    have htmem : t ∈ t :: rest := List.mem_cons_self t rest
    have hkeepS : pruneWindow cfg.shortWindow t es = es :=
      pruneWindow_keep_all _ _ _ (fun e he => (hes e he t htmem).2)
    have hkeepL : pruneWindow cfg.longWindow t es = es :=
      pruneWindow_keep_all _ _ _
        (fun e he => lt_of_lt_of_le (hes e he t htmem).2 hWL)
    have hpair' : List.Pairwise (fun a b => a ≤ b) rest :=
      (List.pairwise_cons.mp hpair).2
    have hthead : ∀ u ∈ rest, t ≤ u := (List.pairwise_cons.mp hpair).1
    have hspan' : ∀ a ∈ rest, ∀ u ∈ rest, a - u < cfg.shortWindow :=
      fun a ha u hu =>
        hspan a (List.mem_cons_of_mem t ha) u (List.mem_cons_of_mem t hu)
    by_cases hfull : es.length < cfg.shortLimit
    · have hcond : es.length < cfg.shortLimit ∧ es.length < cfg.longLimit :=
        ⟨hfull, lt_of_lt_of_le hfull hLL⟩
      have hstep : throttleRequest cfg ⟨es, es⟩ t
          = (.admitted, ⟨t :: es, t :: es⟩) := by
        unfold throttleRequest
        rw [hkeepS, hkeepL, if_pos hcond]
      have hes' : ∀ e ∈ t :: es, ∀ u ∈ rest, e ≤ u ∧ u - e < cfg.shortWindow := by
        intro e he u hu
        rcases List.mem_cons.mp he with h | h
        · subst h
          exact ⟨hthead u hu, hspan u (List.mem_cons_of_mem e hu) e htmem⟩
        · exact ⟨(hes e h u (List.mem_cons_of_mem t hu)).1,
            (hes e h u (List.mem_cons_of_mem t hu)).2⟩
      have hlen' : (t :: es).length ≤ cfg.shortLimit := by
        rw [List.length_cons]
        omega
      obtain ⟨ts, hts, htsb⟩ := ih (t :: es) hpair' hspan' hlen' hes'
      refine ⟨ts, ?_, htsb⟩
      have hunfold : (runThrottle cfg ⟨es, es⟩ (t :: rest)).1
          = ThrottleDecision.admitted
            :: (runThrottle cfg ⟨t :: es, t :: es⟩ rest).1 := by
        rw [runThrottle_cons, hstep]
      rw [hunfold, hts]
      have hm : min (t :: rest).length (cfg.shortLimit - es.length)
          = min rest.length (cfg.shortLimit - (t :: es).length) + 1 := by
        simp only [List.length_cons]
        omega
      rw [hm, List.replicate_succ]
      rfl
    · have hcond : ¬ (es.length < cfg.shortLimit ∧ es.length < cfg.longLimit) := by
        rintro ⟨h1, -⟩
        exact hfull h1
      have hstep : throttleRequest cfg ⟨es, es⟩ t
          = (.throttled (oldestEntry es + cfg.shortWindow - t), ⟨es, es⟩) := by
        unfold throttleRequest
        rw [hkeepS, hkeepL, if_neg hcond]
      have hrle : oldestEntry es + cfg.shortWindow - t ≤ cfg.shortWindow := by
        cases es with
        | nil =>
          exfalso
          simp only [List.length_nil, not_lt, Nat.le_zero] at hfull
          omega
        | cons e0 etail =>
          have h1 : oldestEntry (e0 :: etail) ≤ e0 := foldMin_le_init etail e0
          have h2 : e0 ≤ t := (hes e0 (List.mem_cons_self e0 etail) t htmem).1
          linarith
      have hes' : ∀ e ∈ es, ∀ u ∈ rest, e ≤ u ∧ u - e < cfg.shortWindow :=
        fun e he u hu =>
          ⟨(hes e he u (List.mem_cons_of_mem t hu)).1,
           (hes e he u (List.mem_cons_of_mem t hu)).2⟩
      obtain ⟨ts, hts, htsb⟩ := ih es hpair' hspan' hlen hes'
      refine ⟨ThrottleDecision.throttled (oldestEntry es + cfg.shortWindow - t) :: ts,
        ?_, ?_⟩
      · have hunfold : (runThrottle cfg ⟨es, es⟩ (t :: rest)).1
            = ThrottleDecision.throttled (oldestEntry es + cfg.shortWindow - t)
              :: (runThrottle cfg ⟨es, es⟩ rest).1 := by
          rw [runThrottle_cons, hstep]
        have hm0 : min (t :: rest).length (cfg.shortLimit - es.length) = 0 := by
          simp only [List.length_cons]
          omega
        have hm0' : min rest.length (cfg.shortLimit - es.length) = 0 := by
          omega
        rw [hunfold, hts, hm0, hm0']
        rfl
      · intro d hd
        rcases List.mem_cons.mp hd with h | h
        · exact ⟨oldestEntry es + cfg.shortWindow - t, h, hrle⟩
        · exact htsb d h

lemma countP_replicate_admitted (n : ℕ) :
    (List.replicate n ThrottleDecision.admitted).countP
      (fun d => decide (d = ThrottleDecision.admitted)) = n := by
  induction n with
  | zero => rfl
  | succ m ih => simp [List.replicate_succ, List.countP_cons, ih]

/-- C7: for a single client identity issuing any non-decreasing sequence
of requests whose arrival times all lie within one short sliding window
(span < window width), exactly `min n shortLimit` admissions succeed
(the first ones, each recorded in both window counters), and every
throttled request — the first rejected one in particular — carries a
retry-after of at most the window width. -/
theorem throttle_sliding_window_admissions :
    ∀ (cfg : ThrottleConfig) (times : List ℚ),
      0 < cfg.shortWindow → cfg.shortWindow ≤ cfg.longWindow →
      1 ≤ cfg.shortLimit → cfg.shortLimit ≤ cfg.longLimit →
      List.Pairwise (fun a b => a ≤ b) times →
      (∀ t ∈ times, ∀ u ∈ times, t - u < cfg.shortWindow) →
      ((runThrottle cfg ⟨[], []⟩ times).1.countP
          (fun d => decide (d = ThrottleDecision.admitted))
        = min times.length cfg.shortLimit) ∧
      (∃ ts : List ThrottleDecision,
        (runThrottle cfg ⟨[], []⟩ times).1
          = List.replicate (min times.length cfg.shortLimit)
              ThrottleDecision.admitted ++ ts ∧
        ∀ d ∈ ts, ∃ r, d = ThrottleDecision.throttled r ∧ r ≤ cfg.shortWindow) := by
  intro cfg times hW hWL hL hLL hpair hspan
  obtain ⟨ts, hts, htsb⟩ := runThrottle_window_shape cfg hW hWL hL hLL times []
    hpair hspan (by simp) (by simp)
  simp only [List.length_nil, Nat.sub_zero] at hts
  have hzero : ts.countP (fun d => decide (d = ThrottleDecision.admitted)) = 0 := by
    apply List.countP_eq_zero.mpr
    intro d hd
    obtain ⟨r, hr, -⟩ := htsb d hd
    subst hr
    simp
  refine ⟨?_, ts, hts, htsb⟩
  rw [hts, List.countP_append, countP_replicate_admitted, hzero]
  omega

/-- A throttle configuration with a 60-second short window limited to 2
requests, for the witness. -/
def slidingWitnessConfig : ThrottleConfig :=
  { shortWindow := 60, shortLimit := 2, longWindow := 3600, longLimit := 1000 }

/-- Witness for C7: three requests at the distinct times 0, 10 and 25
inside one 60-second window with limit 2 — two admissions succeed, the
rest is throttled with retry-after at most 60. -/
theorem throttle_sliding_window_admissions_witness :
    ((runThrottle slidingWitnessConfig ⟨[], []⟩ [0, 10, 25]).1.countP
        (fun d => decide (d = ThrottleDecision.admitted))
      = min (List.length [(0 : ℚ), 10, 25]) slidingWitnessConfig.shortLimit) ∧
    (∃ ts : List ThrottleDecision,
      (runThrottle slidingWitnessConfig ⟨[], []⟩ [0, 10, 25]).1
        = List.replicate (min (List.length [(0 : ℚ), 10, 25]) slidingWitnessConfig.shortLimit)
            ThrottleDecision.admitted ++ ts ∧
      ∀ d ∈ ts, ∃ r, d = ThrottleDecision.throttled r ∧ r ≤ slidingWitnessConfig.shortWindow) :=
  throttle_sliding_window_admissions slidingWitnessConfig [0, 10, 25]
    (by norm_num [slidingWitnessConfig]) (by norm_num [slidingWitnessConfig])
    (by norm_num [slidingWitnessConfig]) (by norm_num [slidingWitnessConfig])
    (by norm_num [List.pairwise_cons])
    (by
      intro t ht u hu
      fin_cases ht <;> fin_cases hu <;> norm_num [slidingWitnessConfig])

/-- C8: every backoff delay is capped at `maxDelay`; for every fixed
jitter draw the delay between attempts `k` and `k+1` is non-decreasing
in `k`, and hence under any (finite, non-negatively weighted) jitter
distribution the expected delay is non-decreasing across attempts. -/
theorem retryDelay_monotone_and_capped :
    ∀ cfg : RetryConfig, 0 ≤ cfg.baseDelay → 1 ≤ cfg.exponentialBase →
      (∀ (k : ℕ) (j : ℚ), retryDelay cfg k j ≤ cfg.maxDelay) ∧
      (∀ (k : ℕ) (j : ℚ), 0 ≤ j → retryDelay cfg k j ≤ retryDelay cfg (k + 1) j) ∧
      (∀ dist : List (ℚ × ℚ), (∀ p ∈ dist, 0 ≤ p.1 ∧ 0 ≤ p.2) → ∀ k : ℕ,
        (dist.map (fun p => p.1 * retryDelay cfg k p.2)).sum
          ≤ (dist.map (fun p => p.1 * retryDelay cfg (k + 1) p.2)).sum) := by
  intro cfg hbase hexp
  have hmono : ∀ (k : ℕ) (j : ℚ), 0 ≤ j →
      retryDelay cfg k j ≤ retryDelay cfg (k + 1) j := by
    intro k j hj
    unfold retryDelay
    apply min_le_min (le_refl _)
    have hpow : cfg.exponentialBase ^ k ≤ cfg.exponentialBase ^ (k + 1) :=
      pow_le_pow_right₀ hexp (Nat.le_succ k)
    have : cfg.baseDelay * cfg.exponentialBase ^ k
        ≤ cfg.baseDelay * cfg.exponentialBase ^ (k + 1) :=
      mul_le_mul_of_nonneg_left hpow hbase
    exact mul_le_mul_of_nonneg_right this hj
  refine ⟨?_, hmono, ?_⟩
  · intro k j
    exact min_le_left _ _
  · intro dist hdist k
    induction dist with
    | nil => simp
    | cons p rest ih =>
      simp only [List.map_cons, List.sum_cons]
      have hp := hdist p (List.mem_cons_self p rest)
      have h1 : p.1 * retryDelay cfg k p.2 ≤ p.1 * retryDelay cfg (k + 1) p.2 :=
        mul_le_mul_of_nonneg_left (hmono k p.2 hp.2) hp.1
      have h2 := ih (fun q hq => hdist q (List.mem_cons_of_mem p hq))
      linarith

/-- The spec's default-ish retry configuration: 3 attempts, base delay
1, cap 30, exponential base 2. -/
def witnessRetryConfig : RetryConfig :=
  { maxAttempts := 3, baseDelay := 1, maxDelay := 30, exponentialBase := 2 }

/-- Witness for C8 at the concrete configuration, attempt 0 and a unit
jitter distribution. -/
theorem retryDelay_monotone_and_capped_witness :
    retryDelay witnessRetryConfig 0 1 ≤ witnessRetryConfig.maxDelay ∧
    retryDelay witnessRetryConfig 0 1 ≤ retryDelay witnessRetryConfig 1 1 ∧
    ([((1 : ℚ), (1 : ℚ))].map (fun p => p.1 * retryDelay witnessRetryConfig 0 p.2)).sum
      ≤ ([((1 : ℚ), (1 : ℚ))].map (fun p => p.1 * retryDelay witnessRetryConfig 1 p.2)).sum := by
  have h := retryDelay_monotone_and_capped witnessRetryConfig
    (by norm_num [witnessRetryConfig]) (by norm_num [witnessRetryConfig])
  exact ⟨h.1 0 1, h.2.1 0 1 (by norm_num),
    h.2.2 [((1 : ℚ), (1 : ℚ))] (by norm_num) 0⟩

/-- C10: every input whose trimmed form matches the bare two-segment
pattern `[\w-.]+/[\w-.]+` — 'facebook/react', but equally a
domain-plus-path string such as 'example.com/path' — is classified as a
valid GitHub target, never as a website, because all GitHub patterns are
tested before any website pattern; the website classification is
reachable only for inputs matching no GitHub pattern. -/
theorem bare_owner_repo_classified_github :
    (∀ url : List Char, rmatch ownerRepoPattern (trimChars url) = true →
      validateAndParseURL url = { isValid := true, type := some .github, error := none }) ∧
    (∀ url : List Char, (validateAndParseURL url).type = some .website →
      ∀ p ∈ githubPatterns, rmatch p (trimChars url) = false) := by
  constructor
  · intro url h
    have hne : ¬ (trimChars url).length = 0 := by
      intro h0
      rw [List.length_eq_zero] at h0
      rw [h0] at h
      exact absurd h (by decide)
    have hany : (githubPatterns.any fun p => rmatch p (trimChars url)) = true :=
      List.any_eq_true.mpr ⟨ownerRepoPattern, by simp [githubPatterns], h⟩
    unfold validateAndParseURL
    rw [if_neg hne, if_pos hany]
  · intro url htype p hp
    by_contra hfalse
    have htrue : rmatch p (trimChars url) = true := by
      cases hm : rmatch p (trimChars url) with
      | false => exact absurd hm hfalse
      | true => rfl
    have hany : (githubPatterns.any fun q => rmatch q (trimChars url)) = true :=
      List.any_eq_true.mpr ⟨p, hp, htrue⟩
    unfold validateAndParseURL at htype
    by_cases hlen : (trimChars url).length = 0
    · rw [if_pos hlen] at htype
      exact absurd htype (by simp)
    · rw [if_neg hlen, if_pos hany] at htype
      simp at htype

/-- Witness for C10 at 'facebook/react' and 'example.com/path'. -/
theorem bare_owner_repo_classified_github_witness :
    rmatch ownerRepoPattern (trimChars (String.toList ("facebook/react"))) = true ∧
    validateAndParseURL (String.toList ("facebook/react"))
      = { isValid := true, type := some .github, error := none } ∧
    validateAndParseURL (String.toList ("example.com/path"))
      = { isValid := true, type := some .github, error := none } := by
  refine ⟨by decide, ?_, ?_⟩
  · exact bare_owner_repo_classified_github.1 (String.toList ("facebook/react")) (by decide)
  · exact bare_owner_repo_classified_github.1 (String.toList ("example.com/path")) (by decide)

/-- Counterexample to C9 as stated: `normalizeURL` performs no case
folding and no trailing-slash removal, so targets differing only in
letter case ('Example.com' vs 'example.com') or a trailing slash
('example.com/' vs 'example.com') normalize to distinct keys. -/
theorem normalizeURL_counterexample :
    normalizeURL (String.toList ("Example.com")) .website
        ≠ normalizeURL (String.toList ("example.com")) .website ∧
    normalizeURL (String.toList ("example.com/")) .website
        ≠ normalizeURL (String.toList ("example.com")) .website :=
  ⟨by decide, by decide⟩

/-- C9 as amended: the normalization is deterministic (a pure function
of the input) and canonicalizes targets — a bare owner/repo repository
target is rewritten to the full `https://github.com/owner/repo` form and
a protocol-less website target gets `https://` prefixed — but it
performs no case folding and no trailing-slash removal, so targets
differing only in letter case or a trailing slash normalize to distinct
keys. -/
theorem normalizeURL_canonicalizes :
    (∀ url : List Char, rmatch ownerRepoPattern (trimChars url) = true →
      normalizeURL url .github = httpsGithubLit ++ trimChars url) ∧
    (∀ url : List Char,
      listStartsWith (trimChars url) httpLit = false →
      listStartsWith (trimChars url) httpsLit = false →
      normalizeURL url .website = httpsLit ++ trimChars url) ∧
    normalizeURL (String.toList ("Example.com")) .website
        ≠ normalizeURL (String.toList ("example.com")) .website ∧
    normalizeURL (String.toList ("example.com/")) .website
        ≠ normalizeURL (String.toList ("example.com")) .website := by
  refine ⟨?_, ?_, by decide, by decide⟩
  · intro url h
    show (if rmatch ownerRepoPattern (trimChars url) = true
          then httpsGithubLit ++ trimChars url
          else if listStartsWith (trimChars url) githubComSlashLit = true
            then httpsLit ++ trimChars url
            else trimChars url) = httpsGithubLit ++ trimChars url
    rw [if_pos h]
  · intro url h1 h2
    show (if (listStartsWith (trimChars url) httpLit
              || listStartsWith (trimChars url) httpsLit) = true
          then trimChars url
          else httpsLit ++ trimChars url) = httpsLit ++ trimChars url
    rw [if_neg (by simp [h1, h2])]

/-- Witness for the amended C9 at 'facebook/react' (GitHub) and
'example.com' (website). -/
theorem normalizeURL_canonicalizes_witness :
    normalizeURL (String.toList ("facebook/react")) .github
        = httpsGithubLit ++ trimChars (String.toList ("facebook/react")) ∧
    normalizeURL (String.toList ("example.com")) .website
        = httpsLit ++ trimChars (String.toList ("example.com")) :=
  ⟨normalizeURL_canonicalizes.1 _ (by decide),
   normalizeURL_canonicalizes.2.1 _ (by decide) (by decide)⟩

end StackDebt
